import Mathlib

/-!
Verification development for the LLM-ProofChecker repository: a Łukasiewicz
(P2) propositional proof verifier reached through two Python harnesses.
The harnesses (`verify_harness.py`, `ai_harness.py`) are embedded directly;
the compiled verifier `libproofchecker.so` is not part of the source tree,
so its formula parser, schema matcher, line parser and derivation checker
are modelled from the specification.
-/

namespace ProofChecker

/-- Modelled from the spec: the Formula data model of the verifier
(the verifier ships only as `libproofchecker.so`).  An immutable tagged
variant: `Atom` (one uppercase letter), `Negation`, `Implication`;
value types compared by structural equality. -/
inductive Formula where
  | Atom : Char → Formula
  | Negation : Formula → Formula
  | Implication : Formula → Formula → Formula
deriving DecidableEq

/-- Node count of a formula tree. -/
def Formula.size : Formula → Nat
  | .Atom _ => 1
  | .Negation a => a.size + 1
  | .Implication a b => a.size + b.size + 1

/-- An atom symbol is exactly one uppercase letter A–Z. -/
def isUpperAtom (c : Char) : Bool := decide ('A' ≤ c ∧ c ≤ 'Z')

/-- All atom names in the formula are uppercase letters (true of every
formula produced by the parser). -/
def wellFormed : Formula → Bool
  | .Atom c => isUpperAtom c
  | .Negation a => wellFormed a
  | .Implication a b => wellFormed a && wellFormed b

/-- Modelled from the spec: the recursive-descent prefix-notation parser of
the verifier.  `c` consumes two sub-formulas, `n` one, any other symbol must
be an uppercase letter.  Fuel-indexed; one character consumes one unit of
fuel, so fuel equal to the input length always suffices. -/
def parseAux : Nat → List Char → Option (Formula × List Char)
  | 0, _ => none
  | _ + 1, [] => none
  | fuel + 1, ch :: rest =>
    if ch = 'c' then
      match parseAux fuel rest with
      | some (a, r1) =>
        match parseAux fuel r1 with
        | some (b, r2) => some (.Implication a b, r2)
        | none => none
      | none => none
    else if ch = 'n' then
      match parseAux fuel rest with
      | some (a, r1) => some (.Negation a, r1)
      | none => none
    else if isUpperAtom ch then some (.Atom ch, rest)
    else none

/-- Parse a whole character list as one formula; any leftover suffix is a
parse error. -/
def parseFormulaChars (l : List Char) : Option Formula :=
  match parseAux l.length l with
  | some (f, []) => some f
  | _ => none

/-- Parse a whole string as one formula (spec §4.1). -/
def parseFormula (s : String) : Option Formula :=
  parseFormulaChars s.data

/-- Serialize a formula back to prefix notation, as a character list. -/
def serializeChars : Formula → List Char
  | .Atom c => [c]
  | .Negation a => 'n' :: serializeChars a
  | .Implication a b => 'c' :: (serializeChars a ++ serializeChars b)

/-- Serialize a formula back to prefix-notation text. -/
def serialize (f : Formula) : String := String.mk (serializeChars f)

/-- Modelled from the spec: axiom-schema templates over metavariables,
represented as data consumed by one generic matcher (spec §9). -/
inductive Template where
  | MetaVar : Char → Template
  | TNegation : Template → Template
  | TImplication : Template → Template → Template

/-- A metavariable environment: bindings accumulated during matching. -/
abbrev Binding := List (Char × Formula)

/-- Modelled from the spec: structural unification of a candidate formula
against a template.  A metavariable binds on first occurrence; later
occurrences must bind to a structurally equal subtree; connective kinds must
agree exactly.  Failure is an `Option`, not an exception. -/
def matchTemplate : Template → Formula → Binding → Option Binding
  | .MetaVar v, f, env =>
    match env.lookup v with
    | some g => if g = f then some env else none
    | none => some ((v, f) :: env)
  | .TNegation t, .Negation g, env => matchTemplate t g env
  | .TImplication t1 t2, .Implication a b, env =>
    match matchTemplate t1 a env with
    | some env1 => matchTemplate t2 b env1
    | none => none
  | _, _, _ => none

/-- Modelled from the spec: the three fixed schema templates AX1–AX3. -/
def schemaTemplate : Nat → Option Template
  | 1 => some (.TImplication (.MetaVar 'A')
      (.TImplication (.MetaVar 'B') (.MetaVar 'A')))
  | 2 => some (.TImplication
      (.TImplication (.MetaVar 'A') (.TImplication (.MetaVar 'B') (.MetaVar 'C')))
      (.TImplication (.TImplication (.MetaVar 'A') (.MetaVar 'B'))
        (.TImplication (.MetaVar 'A') (.MetaVar 'C'))))
  | 3 => some (.TImplication
      (.TImplication (.TNegation (.MetaVar 'B')) (.TNegation (.MetaVar 'A')))
      (.TImplication (.MetaVar 'A') (.MetaVar 'B')))
  | _ => none

/-- Does the candidate formula instantiate schema `s`? -/
def matchesSchema (s : Nat) (f : Formula) : Bool :=
  match schemaTemplate s with
  | some t => (matchTemplate t f []).isSome
  | none => false

/-- Modelled from the spec: a line's justification — `Premise`, an axiom
schema id, or `ModusPonens i j` with 1-based line indices. -/
inductive Justification where
  | Premise : Justification
  | Ax : Nat → Justification
  | ModusPonens : Nat → Nat → Justification
deriving DecidableEq

/-- Modelled from the spec: one derivation line. -/
structure ProofLine where
  index : Nat
  formula : Formula
  justification : Justification
deriving DecidableEq

/-- Modelled from the spec: the error taxonomy of §7.  A modus-ponens line
whose cited implication line is not an implication is reported as
`AntecedentMismatch`, matching Scenario B of §8. -/
inductive ErrorKind where
  | ParseError : ErrorKind
  | MalformedLineNumbering : ErrorKind
  | UnknownJustification : ErrorKind
  | PremiseNotFound : ErrorKind
  | AxiomMismatch : ErrorKind
  | ForwardReference : ErrorKind
  | AntecedentMismatch : ErrorKind
  | ConsequentMismatch : ErrorKind
  | GoalMismatch : ErrorKind
deriving DecidableEq

/-- The append-only table of proved formulas: position `m - 1` holds the
formula proved at line `m`. -/
abbrev ProofTable := List Formula

/-- The formula proved at 1-based line `m`, if any. -/
def tableGet (table : ProofTable) (m : Nat) : Option Formula :=
  if m = 0 then none else table.get? (m - 1)

/-- Premise membership: structural equality against any entry of the premise
sequence, not sequence position. -/
def premiseMember (premises : List Formula) (f : Formula) : Bool :=
  decide (f ∈ premises)

/-- Modelled from the spec: validate one line's justification (spec §4.4)
against the premises and the table of previously proved lines; `k` is the
line's own 1-based index.  `none` means the line is accepted. -/
def validateLine (premises : List Formula) (table : ProofTable) (k : Nat)
    (f : Formula) : Justification → Option ErrorKind
  | .Premise =>
    if premiseMember premises f then none else some .PremiseNotFound
  | .Ax s => if matchesSchema s f then none else some .AxiomMismatch
  | .ModusPonens i j =>
    if k ≤ i ∨ k ≤ j then some .ForwardReference
    else
      match tableGet table j with
      | some (.Implication phi psi) =>
        if tableGet table i = some phi then
          if f = psi then none else some .ConsequentMismatch
        else some .AntecedentMismatch
      | _ => some .AntecedentMismatch

/-- Modelled from the spec: the derivation checker's states (spec §4.4). -/
inductive CheckState where
  | Running : Nat → ProofTable → CheckState
  | Failed : ErrorKind → Nat → CheckState
  | Succeeded : ProofTable → CheckState
deriving DecidableEq

/-- One step of the state machine: validate the next line; on success append
its formula to the table and advance, on failure transition to `Failed` at
the current line.  `Failed` and `Succeeded` absorb. -/
def stepLine (premises : List Formula) (st : CheckState) (l : ProofLine) :
    CheckState :=
  match st with
  | .Running k table =>
    match validateLine premises table k l.formula l.justification with
    | none => .Running (k + 1) (table ++ [l.formula])
    | some e => .Failed e k
  | st => st

/-- Replay all lines in order from the initial state `Running 1 []`. -/
def runLines (premises : List Formula) (lines : List ProofLine) : CheckState :=
  lines.foldl (stepLine premises) (.Running 1 [])

/-- After the last line: succeed only if the table's last entry equals the
goal, else fail with `GoalMismatch`. -/
def checkGoal (goal : Formula) : CheckState → CheckState
  | .Running k table =>
    match table.getLast? with
    | some f => if f = goal then .Succeeded table else .Failed .GoalMismatch (k - 1)
    | none => .Failed .GoalMismatch 0
  | st => st

/-- Modelled from the spec: the full derivation checker over parsed lines. -/
def checkDerivation (premises : List Formula) (goal : Formula)
    (lines : List ProofLine) : CheckState :=
  checkGoal goal (runLines premises lines)

/-- Split a character list on a separator character; separators delimit
(possibly empty) fields. -/
def splitOnChar (sep : Char) : List Char → List (List Char)
  | [] => [[]]
  | ch :: rest =>
    if ch = sep then [] :: splitOnChar sep rest
    else
      match splitOnChar sep rest with
      | w :: ws => (ch :: w) :: ws
      | [] => [[ch]]

/-- The non-empty space-separated fields of one line. -/
def lineFields (l : List Char) : List (List Char) :=
  (splitOnChar ' ' l).filter (fun w => w ≠ [])

/-- Decimal digit value of a character, if it is a digit. -/
def charDigit (c : Char) : Option Nat :=
  if '0' ≤ c ∧ c ≤ '9' then some (c.toNat - '0'.toNat) else none

/-- Accumulate the decimal value of a digit string. -/
def parseNatAux (acc : Nat) : List Char → Option Nat
  | [] => some acc
  | c :: r =>
    match charDigit c with
    | some d => parseNatAux (acc * 10 + d) r
    | none => none

/-- Parse a non-empty decimal numeral. -/
def parseNat : List Char → Option Nat
  | [] => none
  | l => parseNatAux 0 l

/-- Modelled from the spec: recognize a justification token sequence —
`Premise`, `AX1`, `AX2`, `AX3`, or `MP i j` with positive integers
(spec §4.3); anything else is unknown. -/
def parseJustificationFields : List (List Char) → Option Justification
  | [w] =>
    if w = "Premise".data then some .Premise
    else if w = "AX1".data then some (.Ax 1)
    else if w = "AX2".data then some (.Ax 2)
    else if w = "AX3".data then some (.Ax 3)
    else none
  | [w, si, sj] =>
    if w = "MP".data then
      match parseNat si, parseNat sj with
      | some i, some j =>
        if 0 < i ∧ 0 < j then some (.ModusPonens i j) else none
      | _, _ => none
    else none
  | _ => none

/-- Modelled from the spec: parse one non-blank proof line into
(index, formula, justification) (spec §4.3). -/
def parseLine (l : List Char) : Except ErrorKind (Nat × Formula × Justification) :=
  match lineFields l with
  | idxStr :: formulaStr :: justFields =>
    match parseNat idxStr with
    | some idx =>
      if 0 < idx then
        match parseFormulaChars formulaStr with
        | some f =>
          match parseJustificationFields justFields with
          | some j => .ok (idx, f, j)
          | none => .error .UnknownJustification
        | none => .error .ParseError
      else .error .MalformedLineNumbering
    | none => .error .ParseError
  | _ => .error .ParseError

/-- Parse the non-blank lines in order, requiring indices to count up
contiguously from 1 (spec §4.3); an error carries the position of the
offending line. -/
def parseLinesAux (k : Nat) : List (List Char) →
    Except (ErrorKind × Nat) (List ProofLine)
  | [] => .ok []
  | s :: rest =>
    match parseLine s with
    | .ok (idx, f, j) =>
      if idx = k then
        match parseLinesAux (k + 1) rest with
        | .ok ls => .ok (⟨idx, f, j⟩ :: ls)
        | .error e => .error e
      else .error (.MalformedLineNumbering, k)
    | .error e => .error (e, k)

/-- Modelled from the spec: split proof text into lines, ignore fully blank
lines, and parse each (spec §4.3, §6). -/
def parseProofText (text : String) : Except (ErrorKind × Nat) (List ProofLine) :=
  parseLinesAux 1 ((splitOnChar '\n' text.data).filter (fun l => lineFields l ≠ []))

/-- Parse every premise string; fails if any premise is malformed. -/
def parsePremises : List String → Option (List Formula)
  | [] => some []
  | s :: rest =>
    match parseFormula s with
    | some f =>
      match parsePremises rest with
      | some fs => some (f :: fs)
      | none => none
    | none => none

/-- Modelled from the spec: the verifier's call contract (spec §6) —
premises as formula strings, a goal formula string, and proof text, giving
the final checker state. -/
def verifyDerivation (premises : List String) (goal : String)
    (proofText : String) : CheckState :=
  match parsePremises premises with
  | none => .Failed .ParseError 0
  | some ps =>
    match parseFormula goal with
    | none => .Failed .ParseError 0
    | some g =>
      match parseProofText proofText with
      | .error (e, k) => .Failed e k
      | .ok lines => checkDerivation ps g lines

end ProofChecker

/-- An observable event at the foreign-call boundary of the Python wrappers:
the call into the library, the decoding of the returned report buffer, and
the paired release of that buffer. -/
inductive BoundaryEvent where
  | CallVerify : String → BoundaryEvent
  | DecodeBuffer : String → BoundaryEvent
  | FreeBuffer : BoundaryEvent
deriving DecidableEq

/-- The behavior of `libproofchecker.so`'s `verify_proof` as seen through
`ctypes`: a status code and the contents of the out-parameter buffer
(`none` models a NULL pointer).  The wrappers are verified for every such
behavior. -/
abbrev LibModel := String → Int × Option String

namespace verify_harness

/-- The wrapper `verify_proof` of `verify_harness.py`: call the library,
decode the buffer when `out_ptr.value` is truthy (non-NULL and non-empty),
then free the buffer when `out_ptr` is truthy (non-NULL).  Returns the
event trace together with the (return code, output string) pair. -/
def verify_proof (lib : LibModel) (proof_str : String) :
    List BoundaryEvent × Int × String :=
  match lib proof_str with
  | (rc, some buf) =>
    ([BoundaryEvent.CallVerify proof_str]
        ++ (if buf = "" then [] else [BoundaryEvent.DecodeBuffer buf])
        ++ [BoundaryEvent.FreeBuffer],
      rc, buf)
  | (rc, none) => ([BoundaryEvent.CallVerify proof_str], rc, "")

end verify_harness

namespace ai_harness

/-- The wrapper `verify_proof` of `ai_harness.py`; its body is line-for-line
the same as the one in `verify_harness.py`. -/
def verify_proof (lib : LibModel) (proof_str : String) :
    List BoundaryEvent × Int × String :=
  match lib proof_str with
  | (rc, some buf) =>
    ([BoundaryEvent.CallVerify proof_str]
        ++ (if buf = "" then [] else [BoundaryEvent.DecodeBuffer buf])
        ++ [BoundaryEvent.FreeBuffer],
      rc, buf)
  | (rc, none) => ([BoundaryEvent.CallVerify proof_str], rc, "")

end ai_harness

/-- The whole-run boundary as `ai_harness.py`'s main block exercises it:
premises and goal are consumed only by the proof generator; the verifier
wrapper receives the proof text alone, so the result ignores the premise
and goal arguments. -/
def boundaryCall (lib : LibModel) (premises : List String) (goal : String)
    (proofText : String) : Int × String :=
  (ai_harness.verify_proof lib proofText).2

/-- A concrete stand-in library behavior, used to evaluate the boundary at
concrete inputs: echo the input back with status 0. -/
def libEcho : LibModel := fun s => (0, some s)

open ProofChecker

/-! ## Concrete sample data and auxiliary notions used by the theorems -/

/-- The proof table after the two lines of spec §8 Scenario A's shape:
line 1 proves cPQ, line 2 proves P. -/
def mpTable : ProofTable :=
  [Formula.Implication (.Atom 'P') (.Atom 'Q'), Formula.Atom 'P']

/-- The prompt's Example 2 derivation from ai_harness.py: line 1 cPcQP as
Premise, line 2 cQP justified MP 1 1. -/
def example2Text : String := "1 cPcQP Premise\n2 cQP MP 1 1"

/-- A line that fails validation: P as a premise with no premises given. -/
def failingLine : ProofLine := ⟨1, .Atom 'P', .Premise⟩

/-- A line that would be valid, placed after the failing one. -/
def afterLine : ProofLine := ⟨2, .Atom 'P', .Premise⟩

/-- Permutation of optional premise-parse results: both fail, or both
succeed with permuted formula lists. -/
def OptPerm : Option (List Formula) → Option (List Formula) → Prop
  | some a, some b => a.Perm b
  | none, none => True
  | _, _ => False

/-! ## Helper lemmas -/

/-- `Failed` is absorbing for the state machine. -/
theorem foldl_stepLine_failed (premises : List Formula) (lines : List ProofLine)
    (e : ErrorKind) (m : Nat) :
    lines.foldl (stepLine premises) (.Failed e m) = .Failed e m := by
  induction lines with
  | nil => rfl
  | cons a t ih => simpa only [List.foldl_cons, stepLine] using ih

/-- `Succeeded` is absorbing for the state machine. -/
theorem foldl_stepLine_succeeded (premises : List Formula)
    (lines : List ProofLine) (t : ProofTable) :
    lines.foldl (stepLine premises) (.Succeeded t) = .Succeeded t := by
  induction lines with
  | nil => rfl
  | cons a l ih => simpa only [List.foldl_cons, stepLine] using ih

/-- When the whole run is still `Running`, the line counter is one past the
number of lines and the table holds exactly the lines' formulas in order. -/
theorem runLines_running (premises : List Formula) (lines : List ProofLine) :
    ∀ (k : Nat) (table : ProofTable),
    runLines premises lines = .Running k table →
    k = lines.length + 1 ∧ table = lines.map ProofLine.formula := by
  induction lines using List.reverseRecOn with
  | nil =>
    intro k table h
    unfold runLines at h
    simp only [List.foldl_nil] at h
    cases h
    exact ⟨rfl, rfl⟩
  | append_singleton l a ih =>
    intro k table h
    unfold runLines at h
    rw [List.foldl_append] at h
    simp only [List.foldl_cons, List.foldl_nil] at h
    cases hst : List.foldl (stepLine premises) (.Running 1 []) l with
    | Running k' t' =>
      rw [hst] at h
      simp only [stepLine] at h
      cases hv : validateLine premises t' k' a.formula a.justification with
      | none =>
        rw [hv] at h
        cases h
        obtain ⟨hk, ht⟩ := ih k' t' hst
        subst hk ht
        simp
      | some e =>
        rw [hv] at h
        cases h
    | Failed e m =>
      rw [hst] at h
      simp only [stepLine] at h
      cases h
    | Succeeded t =>
      rw [hst] at h
      simp only [stepLine] at h
      cases h

/-- If a run over `l1 ++ l2` is still `Running`, the run over the first part
already was, with the expected counter and table. -/
theorem runLines_append_running (premises : List Formula)
    (l1 l2 : List ProofLine) (k : Nat) (table : ProofTable)
    (h : runLines premises (l1 ++ l2) = .Running k table) :
    runLines premises l1 = .Running (l1.length + 1) (l1.map ProofLine.formula) := by
  cases hst : runLines premises l1 with
  | Running k' t' =>
    obtain ⟨hk, ht⟩ := runLines_running premises l1 k' t' hst
    rw [hk, ht]
  | Failed e m =>
    exfalso
    have habs : runLines premises (l1 ++ l2) = .Failed e m := by
      unfold runLines at hst ⊢
      rw [List.foldl_append, hst, foldl_stepLine_failed]
    exact CheckState.noConfusion (habs.symm.trans h)
  | Succeeded t =>
    exfalso
    have habs : runLines premises (l1 ++ l2) = .Succeeded t := by
      unfold runLines at hst ⊢
      rw [List.foldl_append, hst, foldl_stepLine_succeeded]
    exact CheckState.noConfusion (habs.symm.trans h)

/-- An implication is strictly larger than its antecedent, so no formula is
its own antecedent. -/
theorem implication_ne_antecedent (phi psi : Formula) :
    Formula.Implication phi psi ≠ phi := by
  intro h
  have hs := congrArg Formula.size h
  simp only [Formula.size] at hs
  omega



/-! ## Claim theorems -/

/-- Claim C10: the two wrapper functions named verify_proof, one defined in
verify_harness.py and one defined in ai_harness.py, are extensionally equal:
for every library behavior and every input string they make the same
sequence of library calls and return the same (return code, output string)
pair. -/
theorem claim_C10_wrappers_extensionally_equal (lib : LibModel) (s : String) :
    verify_harness.verify_proof lib s = ai_harness.verify_proof lib s := rfl

/-- Claim C1 (amended): a verification call at the wrappers' boundary takes
the proof text as its only input and produces a status code plus a
diagnostic report string; premises and goal are not distinct inputs of the
boundary function, so the outcome never depends on them. -/
theorem claim_C1_boundary_takes_proof_text_only (lib : LibModel)
    (premises premises2 : List String) (goal goal2 pt : String) :
    boundaryCall lib premises goal pt = boundaryCall lib premises2 goal2 pt
    ∧ boundaryCall lib premises goal pt = (ai_harness.verify_proof lib pt).2 :=
  ⟨rfl, rfl⟩

/-- Claim C1 is false on the code: at the concrete proof text
"1 Q Premise", changing the premise sequence and the goal does not change
the boundary call's result at all, although the specified verification
contract itself is sensitive to the premise sequence at this very input. -/
theorem claim_C1_counterexample :
    boundaryCall libEcho ["Q"] "Q" "1 Q Premise"
        = boundaryCall libEcho [] "nX" "1 Q Premise"
    ∧ verifyDerivation ["Q"] "Q" "1 Q Premise"
        ≠ verifyDerivation [] "Q" "1 Q Premise" :=
  ⟨rfl, by decide⟩

/-- Claim C2: for every call of the wrapper verify_proof, the
verifier-allocated report buffer is released exactly once when and only
when the call returned a non-null buffer, and the buffer contents are never
accessed after the release: every decode event in the trace comes strictly
before every release event. -/
theorem claim_C2_release_once_and_after_decode (lib : LibModel) (s : String) :
    ((verify_harness.verify_proof lib s).1.count .FreeBuffer
      = if ((lib s).2).isSome then 1 else 0)
    ∧ ∀ (a b : Fin (verify_harness.verify_proof lib s).1.length) (buf : String),
        (verify_harness.verify_proof lib s).1.get a = .FreeBuffer →
        (verify_harness.verify_proof lib s).1.get b = .DecodeBuffer buf →
        (b : Nat) < (a : Nat) := by
  rcases hcall : lib s with ⟨rc, ob⟩
  cases ob with
  | none =>
    have htr : verify_harness.verify_proof lib s
        = ([BoundaryEvent.CallVerify s], rc, "") := by
      simp [verify_harness.verify_proof, hcall]
    rw [htr]
    constructor
    · simp [List.count_cons]
    · intro a b buf hfa hfb
      fin_cases a <;> fin_cases b <;> simp_all
  | some buf0 =>
    by_cases hb : buf0 = ""
    · subst hb
      have htr : verify_harness.verify_proof lib s
          = ([BoundaryEvent.CallVerify s, BoundaryEvent.FreeBuffer], rc, "") := by
        simp [verify_harness.verify_proof, hcall]
      rw [htr]
      constructor
      · simp [List.count_cons]
      · intro a b buf hfa hfb
        fin_cases a <;> fin_cases b <;> simp_all
    · have htr : verify_harness.verify_proof lib s
          = ([BoundaryEvent.CallVerify s, BoundaryEvent.DecodeBuffer buf0,
              BoundaryEvent.FreeBuffer], rc, buf0) := by
        simp [verify_harness.verify_proof, hcall, hb]
      rw [htr]
      constructor
      · simp [List.count_cons]
      · intro a b buf hfa hfb
        fin_cases a <;> fin_cases b <;> simp_all

/-- Claim C5: for every line at index k justified ModusPonens(i, j), if
i >= k or j >= k then the line is rejected with ForwardReference; forward
and self references are never accepted. -/
theorem claim_C5_forward_reference_rejected (premises : List Formula)
    (table : ProofTable) (k i j : Nat) (f : Formula) (h : k ≤ i ∨ k ≤ j) :
    validateLine premises table k f (.ModusPonens i j)
      = some .ForwardReference := by
  simp only [validateLine]
  rw [if_pos h]

/-- Concrete instance of claim C5: line 1 citing MP 2 1. -/
theorem claim_C5_witness :
    validateLine [] [] 1 (Formula.Atom 'Q') (.ModusPonens 2 1)
      = some .ForwardReference :=
  claim_C5_forward_reference_rejected [] [] 1 2 1 (Formula.Atom 'Q')
    (Or.inl (by decide))

/-- Claim C4: for every line justified ModusPonens(i, j) with i and j
strictly less than the line's index k, the line is accepted if and only if
the formula proved at line j is Implication(phi, psi), the formula proved
at line i equals phi, and the line's own formula equals psi; violating the
antecedent equality yields AntecedentMismatch and violating the consequent
equality yields ConsequentMismatch — never a false success. -/
theorem claim_C4_modus_ponens_conditions (premises : List Formula)
    (table : ProofTable) (k i j : Nat) (f : Formula)
    (hik : i < k) (hjk : j < k) :
    (validateLine premises table k f (.ModusPonens i j) = none ↔
      ∃ phi psi, tableGet table j = some (.Implication phi psi) ∧
        tableGet table i = some phi ∧ f = psi)
    ∧ (∀ phi psi, tableGet table j = some (.Implication phi psi) →
        tableGet table i ≠ some phi →
        validateLine premises table k f (.ModusPonens i j)
          = some .AntecedentMismatch)
    ∧ (∀ phi psi, tableGet table j = some (.Implication phi psi) →
        tableGet table i = some phi → f ≠ psi →
        validateLine premises table k f (.ModusPonens i j)
          = some .ConsequentMismatch) := by
  have hfr : ¬ (k ≤ i ∨ k ≤ j) := by omega
  refine ⟨⟨?_, ?_⟩, ?_, ?_⟩
  · simp only [validateLine]
    rw [if_neg hfr]
    split
    · rename_i phi psi heq
      split_ifs with h1 h2
      · intro _
        exact ⟨phi, psi, heq, h1, h2⟩
      · intro hcontra
        exact absurd hcontra (by simp)
      · intro hcontra
        exact absurd hcontra (by simp)
    · intro hcontra
      exact absurd hcontra (by simp)
  · rintro ⟨phi, psi, htj, hti, hf⟩
    simp only [validateLine]
    rw [if_neg hfr, htj]
    simp [hti, hf]
  · intro phi psi htj hti
    simp only [validateLine]
    rw [if_neg hfr, htj]
    simp [hti]
  · intro phi psi htj hti hf
    simp only [validateLine]
    rw [if_neg hfr, htj]
    simp [hti, hf]

/-- Concrete instance of claim C4: line 3 as Q by MP 2 1 is accepted. -/
theorem claim_C4_witness :
    validateLine [] mpTable 3 (Formula.Atom 'Q') (.ModusPonens 2 1) = none :=
  (claim_C4_modus_ponens_conditions [] mpTable 3 2 1 (Formula.Atom 'Q')
      (by decide) (by decide)).1.mpr
    ⟨Formula.Atom 'P', Formula.Atom 'Q', rfl, rfl, rfl⟩

/-- Claim C3: a derivation line justified ModusPonens(i, i), citing one and
the same earlier line as both the antecedent-source and the
implication-source, is never accepted by the checker; in particular the
prompt's Example 2 derivation is rejected rather than validated. -/
theorem claim_C3_self_citing_mp_never_accepted :
    (∀ (premises : List Formula) (table : ProofTable) (k : Nat)
        (f : Formula) (i : Nat),
      (validateLine premises table k f (.ModusPonens i i)).isSome = true)
    ∧ verifyDerivation ["cPcQP"] "cQP" example2Text
        = .Failed .AntecedentMismatch 2 := by
  constructor
  · intro premises table k f i
    simp only [validateLine]
    by_cases hk : k ≤ i
    · rw [if_pos (Or.inl hk)]
      rfl
    · rw [if_neg (fun h => hk (h.elim id id))]
      split
      · rename_i phi psi heq
        rw [heq, if_neg]
        · rfl
        · intro hcontra
          have h2 : Formula.Implication phi psi = phi :=
            Option.some.inj hcontra
          exact implication_ne_antecedent phi psi h2
      · rfl
  · decide

/-- Claim C6: checking is fail-fast — when validating some line fails, the
checker transitions to Failed at that line and no line after the first
failing line is ever evaluated: the whole-derivation outcome is the single
failure recorded at the failing line, whatever lines follow. -/
theorem claim_C6_fail_fast (premises : List Formula) (goal : Formula)
    (lines1 lines2 : List ProofLine) (e : ErrorKind) (m : Nat)
    (h : runLines premises lines1 = .Failed e m) :
    runLines premises (lines1 ++ lines2) = .Failed e m
    ∧ checkDerivation premises goal (lines1 ++ lines2) = .Failed e m := by
  have hr : runLines premises (lines1 ++ lines2) = .Failed e m := by
    unfold runLines at h ⊢
    rw [List.foldl_append, h, foldl_stepLine_failed]
  refine ⟨hr, ?_⟩
  unfold checkDerivation
  rw [hr]
  rfl

/-- Concrete instance of claim C6: the failure at line 1 is the outcome
even with a line appended after it. -/
theorem claim_C6_witness :
    checkDerivation [] (Formula.Atom 'P') ([failingLine] ++ [afterLine])
      = .Failed .PremiseNotFound 1 :=
  (claim_C6_fail_fast [] (Formula.Atom 'P') [failingLine] [afterLine]
    .PremiseNotFound 1 (by decide)).2

/-- Claim C7: at every state reached by the derivation checker, the
ProofTable's domain is exactly the contiguous index set of the lines
processed so far, every formula in it was inserted only after its line's
justification was validated against the table as it then stood, and no
earlier entry is ever mutated (every intermediate table is the prefix of
the final one) — preserved by every step of the state machine. -/
theorem claim_C7_table_invariant (premises : List Formula)
    (lines : List ProofLine) (k : Nat) (table : ProofTable)
    (h : runLines premises lines = .Running k table) :
    k = lines.length + 1
    ∧ table = lines.map ProofLine.formula
    ∧ (∀ n, n ≤ lines.length →
        runLines premises (lines.take n) = .Running (n + 1) (table.take n))
    ∧ (∀ n (hn : n < lines.length),
        validateLine premises (table.take n) (n + 1)
          (lines.get ⟨n, hn⟩).formula (lines.get ⟨n, hn⟩).justification
          = none) := by
  obtain ⟨hk, ht⟩ := runLines_running premises lines k table h
  have hpre : ∀ n, n ≤ lines.length →
      runLines premises (lines.take n) = .Running (n + 1) (table.take n) := by
    intro n hn
    have h2 : runLines premises (lines.take n ++ lines.drop n)
        = .Running k table := by
      rw [List.take_append_drop]
      exact h
    have h3 := runLines_append_running premises (lines.take n) (lines.drop n)
      k table h2
    rw [h3]
    congr 1
    · rw [List.length_take]
      omega
    · rw [ht, List.map_take]
  refine ⟨hk, ht, hpre, ?_⟩
  intro n hn
  have h1 := hpre n (le_of_lt hn)
  have h2 := hpre (n + 1) hn
  rw [List.take_succ, List.getElem?_eq_getElem hn] at h2
  unfold runLines at h1 h2
  rw [List.foldl_append, h1] at h2
  simp only [List.foldl_cons, List.foldl_nil, Option.toList] at h2
  simp only [stepLine] at h2
  have hgl : lines[n] = lines.get ⟨n, hn⟩ := rfl
  rw [hgl] at h2
  cases hv : validateLine premises (table.take n) (n + 1)
      (lines.get ⟨n, hn⟩).formula (lines.get ⟨n, hn⟩).justification with
  | none => rfl
  | some e =>
    rw [hv] at h2
    cases h2

/-- Claim C7 at a concrete run: after the one-line derivation proving P
from premise P, the table holds exactly that line's formula. -/
theorem claim_C7_witness :
    ([Formula.Atom 'P'] : ProofTable)
      = [failingLine].map ProofLine.formula :=
  (claim_C7_table_invariant [Formula.Atom 'P'] [failingLine] 2
    [Formula.Atom 'P'] (by decide)).2.1

/-- Every formula produced by the parser has uppercase atom names only. -/
theorem parseAux_wellFormed : ∀ (fuel : Nat) (l : List Char) (f : Formula)
    (r : List Char), parseAux fuel l = some (f, r) → wellFormed f = true := by
  intro fuel
  induction fuel with
  | zero =>
    intro l f r h
    simp [parseAux] at h
  | succ fuel ih =>
    intro l f r h
    cases l with
    | nil => simp [parseAux] at h
    | cons ch rest =>
      simp only [parseAux] at h
      split at h
      · rcases h1 : parseAux fuel rest with _ | ⟨a, r1⟩
        · rw [h1] at h
          exact Option.noConfusion h
        · rw [h1] at h
          simp only at h
          rcases h2 : parseAux fuel r1 with _ | ⟨b, r2⟩
          · rw [h2] at h
            exact Option.noConfusion h
          · rw [h2] at h
            simp only at h
            cases h
            simp only [wellFormed, Bool.and_eq_true]
            exact ⟨ih _ _ _ h1, ih _ _ _ h2⟩
      · split at h
        · rcases h1 : parseAux fuel rest with _ | ⟨a, r1⟩
          · rw [h1] at h
            exact Option.noConfusion h
          · rw [h1] at h
            simp only at h
            cases h
            show wellFormed a = true
            exact ih _ _ _ h1
        · split at h
          · rename_i hch
            cases h
            simpa [wellFormed] using hch
          · exact Option.noConfusion h

/-- Parsing the serialization of a well-formed formula succeeds, consumes
exactly the serialized characters, and returns the same formula. -/
theorem parseAux_serializeChars : ∀ (f : Formula) (rest : List Char)
    (fuel : Nat), wellFormed f = true → (serializeChars f).length ≤ fuel →
    parseAux fuel (serializeChars f ++ rest) = some (f, rest) := by
  intro f
  induction f with
  | Atom c =>
    intro rest fuel hwf hlen
    cases fuel with
    | zero => simp [serializeChars] at hlen
    | succ fuel =>
      simp only [serializeChars, List.cons_append, List.nil_append]
      simp only [parseAux]
      have hA : isUpperAtom c = true := by simpa [wellFormed] using hwf
      have hc : ¬ (c = 'c') := by
        intro hcontra
        rw [hcontra] at hA
        simp [isUpperAtom] at hA
      have hn2 : ¬ (c = 'n') := by
        intro hcontra
        rw [hcontra] at hA
        simp [isUpperAtom] at hA
      rw [if_neg hc, if_neg hn2, if_pos hA]
  | Negation a iha =>
    intro rest fuel hwf hlen
    cases fuel with
    | zero => simp [serializeChars] at hlen
    | succ fuel =>
      have hwa : wellFormed a = true := by simpa [wellFormed] using hwf
      have hla : (serializeChars a).length ≤ fuel := by
        simp only [serializeChars, List.length_cons] at hlen
        omega
      simp only [serializeChars, List.cons_append]
      simp only [parseAux]
      rw [if_neg (by decide : ¬ (('n' : Char) = 'c')), if_pos trivial,
        iha rest fuel hwa hla]
  | Implication a b iha ihb =>
    intro rest fuel hwf hlen
    cases fuel with
    | zero => simp [serializeChars] at hlen
    | succ fuel =>
      have hw2 : wellFormed a = true ∧ wellFormed b = true := by
        simpa [wellFormed, Bool.and_eq_true] using hwf
      have hlab : (serializeChars a).length + (serializeChars b).length ≤ fuel := by
        simp only [serializeChars, List.length_cons, List.length_append] at hlen
        omega
      simp only [serializeChars, List.cons_append]
      simp only [parseAux]
      rw [if_pos trivial, List.append_assoc,
        iha (serializeChars b ++ rest) fuel hw2.1 (by omega)]
      show (match parseAux fuel (serializeChars b ++ rest) with
        | some (b2, r2) => some (Formula.Implication a b2, r2)
        | none => none) = some (Formula.Implication a b, rest)
      rw [ihb rest fuel hw2.2 (by omega)]

/-- Claim C8: for every Formula f obtained by successfully parsing a
string, re-serializing f back to prefix-notation text and re-parsing that
text yields a Formula structurally identical to f. -/
theorem claim_C8_parse_serialize_roundtrip (s : String) (f : Formula)
    (h : parseFormula s = some f) :
    parseFormula (serialize f) = some f := by
  have hwf : wellFormed f = true := by
    unfold parseFormula parseFormulaChars at h
    cases hp : parseAux s.data.length s.data with
    | none =>
      rw [hp] at h
      exact Option.noConfusion h
    | some pr =>
      obtain ⟨g, r⟩ := pr
      rw [hp] at h
      cases r with
      | nil =>
        cases h
        exact parseAux_wellFormed _ _ _ _ hp
      | cons x xs => exact Option.noConfusion h
  have key := parseAux_serializeChars f [] (serializeChars f).length hwf
    (le_refl _)
  rw [List.append_nil] at key
  unfold parseFormula serialize
  show parseFormulaChars (serializeChars f) = some f
  unfold parseFormulaChars
  rw [key]

/-- Concrete instance of claim C8: the parse of "cPQ" round-trips. -/
theorem claim_C8_witness :
    parseFormula (serialize (Formula.Implication (.Atom 'P') (.Atom 'Q')))
      = some (Formula.Implication (.Atom 'P') (.Atom 'Q')) :=
  claim_C8_parse_serialize_roundtrip "cPQ"
    (Formula.Implication (.Atom 'P') (.Atom 'Q')) (by decide)

/-- Parsing a permuted premise sequence fails exactly when the original
fails, and otherwise yields a permutation of the parsed formulas. -/
theorem parsePremises_perm {l l2 : List String} (h : l.Perm l2) :
    OptPerm (parsePremises l) (parsePremises l2) := by
  induction h with
  | nil => exact List.Perm.refl []
  | cons x p ih =>
    rename_i l1 l2'
    rcases hx : parseFormula x with _ | fx
    · simp only [parsePremises, hx]
      trivial
    · rcases ha : parsePremises l1 with _ | as <;>
        rcases hb : parsePremises l2' with _ | bs <;>
        rw [ha, hb] at ih <;>
        simp only [parsePremises, hx, ha, hb]
      · trivial
      · exact False.elim ih
      · exact False.elim ih
      · exact List.Perm.cons fx ih
  | swap x y l =>
    rcases hx : parseFormula x with _ | fx <;>
      rcases hy : parseFormula y with _ | fy <;>
      rcases hl : parsePremises l with _ | fs <;>
      simp only [parsePremises, hx, hy, hl] <;>
      first
        | trivial
        | exact List.Perm.swap fx fy fs
  | trans p1 p2 ih1 ih2 =>
    rename_i l1 l2' l3
    rcases ha : parsePremises l1 with _ | as <;>
      rcases hb : parsePremises l2' with _ | bs <;>
      rcases hc : parsePremises l3 with _ | cs <;>
      rw [ha, hb] at ih1 <;>
      rw [hb, hc] at ih2
    · trivial
    · exact False.elim ih2
    · exact False.elim ih1
    · exact False.elim ih1
    · exact False.elim ih1
    · exact False.elim ih1
    · exact False.elim ih2
    · exact List.Perm.trans (ih1 : as.Perm bs) (ih2 : bs.Perm cs)

/-- Validating a line only consults the premise sequence through structural
membership, so a permuted premise sequence validates identically. -/
theorem validateLine_perm {ps ps2 : List Formula} (h : ps.Perm ps2)
    (table : ProofTable) (k : Nat) (f : Formula) (j : Justification) :
    validateLine ps table k f j = validateLine ps2 table k f j := by
  cases j with
  | Premise =>
    simp only [validateLine, premiseMember, decide_eq_decide.mpr h.mem_iff]
  | Ax s => rfl
  | ModusPonens i j2 => rfl

/-- The whole run is invariant under permuting the premises. -/
theorem foldl_stepLine_perm {ps ps2 : List Formula} (h : ps.Perm ps2) :
    ∀ (lines : List ProofLine) (st : CheckState),
    lines.foldl (stepLine ps) st = lines.foldl (stepLine ps2) st := by
  intro lines
  induction lines with
  | nil => intro st; rfl
  | cons a t ih =>
    intro st
    have hstep : stepLine ps st a = stepLine ps2 st a := by
      cases st with
      | Running k table =>
        simp only [stepLine]
        rw [validateLine_perm h]
      | Failed e m => rfl
      | Succeeded t2 => rfl
    rw [List.foldl_cons, List.foldl_cons, hstep, ih]

/-- The checker verdict is invariant under permuting the premises. -/
theorem checkDerivation_perm {ps ps2 : List Formula} (h : ps.Perm ps2)
    (g : Formula) (lines : List ProofLine) :
    checkDerivation ps g lines = checkDerivation ps2 g lines := by
  unfold checkDerivation runLines
  rw [foldl_stepLine_perm h]

/-- Claim C9: for every premise sequence, goal formula, and proof text,
permuting the premise sequence does not change the verification outcome —
the Premise check tests membership by structural equality, not by sequence
position. -/
theorem claim_C9_premise_order_irrelevant (premises premises2 : List String)
    (goal pt : String) (h : premises.Perm premises2) :
    verifyDerivation premises goal pt = verifyDerivation premises2 goal pt := by
  have hp := parsePremises_perm h
  unfold verifyDerivation
  rcases ha : parsePremises premises with _ | ps <;>
    rcases hb : parsePremises premises2 with _ | ps2
  case none.none => rfl
  case none.some =>
    rw [ha, hb] at hp
    exact False.elim hp
  case some.none =>
    rw [ha, hb] at hp
    exact False.elim hp
  case some.some =>
    rw [ha, hb] at hp
    cases parseFormula goal with
    | none => rfl
    | some g =>
      cases parseProofText pt with
      | error ek => rfl
      | ok lines => exact checkDerivation_perm (hp : ps.Perm ps2) g lines

/-- Concrete instance of claim C9: swapping two premises leaves the
verification outcome unchanged. -/
theorem claim_C9_witness :
    verifyDerivation ["cPQ", "P"] "Q" "1 P Premise\n2 cPQ Premise\n3 Q MP 1 2"
      = verifyDerivation ["P", "cPQ"] "Q" "1 P Premise\n2 cPQ Premise\n3 Q MP 1 2" :=
  claim_C9_premise_order_irrelevant ["cPQ", "P"] ["P", "cPQ"] "Q"
    "1 P Premise\n2 cPQ Premise\n3 Q MP 1 2" (List.Perm.swap "P" "cPQ" [])
